import Mathlib

/-!
Shallow embedding of the SU2 mesh reader (`SU2Reader.py`).

Lines of the input file are modelled as lists of characters (`Line`);
Python string operations (`strip`, `startswith`, `split`, `int`, `float`)
are embedded as executable functions on `Line`.  Floating point values are
modelled as rationals read from decimal literals; no claim depends on
binary rounding.  The global point array passed to the compaction
functions is modelled as a total indexing function `Int → P`, abstracting
the numpy row-indexing of in-range indices.
-/

namespace SU2Reader

abbrev Line := List Char

/-- Python `str.strip()`: drop leading and trailing whitespace. -/
def pyStrip (l : Line) : Line :=
  ((l.dropWhile Char.isWhitespace).reverse.dropWhile Char.isWhitespace).reverse

/-- Split a character list at every character satisfying `p`, keeping empty
chunks, as Python `str.split(sep)` does for a one-character separator. -/
def splitP (p : Char → Bool) : Line → List Line
  | [] => [[]]
  | c :: rest =>
    if p c then [] :: splitP p rest
    else
      match splitP p rest with
      | [] => [[c]]
      | h :: t => (c :: h) :: t

/-- Python `str.split("=")`. -/
def pySplitEq (l : Line) : List Line := splitP (fun c => c == '=') l

/-- Python `str.split()` (no argument): split on whitespace runs,
discarding empty fields. -/
def pySplitWs (l : Line) : List Line :=
  (splitP Char.isWhitespace l).filter (fun s => !s.isEmpty)

def digitsVal (ds : Line) : Nat :=
  ds.foldl (fun a c => 10 * a + (c.toNat - 48)) 0

def parseNatDigits (ds : Line) : Option Nat :=
  if !ds.isEmpty && ds.all Char.isDigit then some (digitsVal ds) else none

/-- Python `int(s)`: strip whitespace, optional sign, decimal digits. -/
def pyInt (l : Line) : Option Int :=
  match pyStrip l with
  | '-' :: ds => (parseNatDigits ds).map (fun n => -(n : Int))
  | '+' :: ds => (parseNatDigits ds).map (fun n => (n : Int))
  | ds => (parseNatDigits ds).map (fun n => (n : Int))

def parseExp (l : Line) : Option Int :=
  match l with
  | '-' :: ds => (parseNatDigits ds).map (fun n => -(n : Int))
  | '+' :: ds => (parseNatDigits ds).map (fun n => (n : Int))
  | ds => (parseNatDigits ds).map (fun n => (n : Int))

def parseMantissa (l : Line) : Option ℚ :=
  match l.span Char.isDigit with
  | (intPart, rest) =>
    match rest with
    | [] => if intPart.isEmpty then none else some (digitsVal intPart : ℚ)
    | '.' :: frac =>
      if frac.all Char.isDigit && (!intPart.isEmpty || !frac.isEmpty) then
        some ((digitsVal intPart : ℚ) + (digitsVal frac : ℚ) / (10 : ℚ) ^ frac.length)
      else none
    | _ => none

def pyFloatCore (l : Line) : Option ℚ :=
  match splitP (fun c => c == 'e' || c == 'E') l with
  | [m] => parseMantissa m
  | [m, e] =>
    match parseMantissa m, parseExp e with
    | some mv, some ev => some (mv * (10 : ℚ) ^ ev)
    | _, _ => none
  | _ => none

/-- Python `float(s)`, restricted to decimal/scientific literals; the value
is read exactly as a rational. -/
def pyFloat (l : Line) : Option ℚ :=
  match pyStrip l with
  | '-' :: rest => (pyFloatCore rest).map (fun q => -q)
  | '+' :: rest => pyFloatCore rest
  | rest => pyFloatCore rest

/-- Python slice `l[:n]` for an integer bound `n` (negative bounds count
from the end). -/
def pySliceTo (n : Int) (l : List α) : List α :=
  if 0 ≤ n then l.take n.toNat else l.take (l.length - (-n).toNat)

/-- `VTK_TYPE_MAP`: SU2 element type code -> VTK cell type. -/
def vtkTypeMap (t : Int) : Option Int :=
  if t = 3 then some 3
  else if t = 5 then some 5
  else if t = 9 then some 9
  else if t = 10 then some 10
  else if t = 12 then some 12
  else if t = 13 then some 13
  else if t = 14 then some 14
  else none

/-- `SU2_NNODES`: expected node counts for SU2 elements. -/
def su2NNodes (t : Int) : Option Nat :=
  if t = 3 then some 2
  else if t = 5 then some 3
  else if t = 9 then some 4
  else if t = 10 then some 4
  else if t = 12 then some 8
  else if t = 13 then some 6
  else if t = 14 then some 5
  else none

/-! ### Compaction (`build_surface_compacted`, `build_boundary_compacted_2d`) -/

/-- Geometry content of the `vtkUnstructuredGrid` a compaction builds:
compact point rows, remapped connectivity, VTK cell types. -/
structure CompactMesh (P : Type) where
  points : List P
  connectivity : List (List Nat)
  ctypes : List Int
  deriving DecidableEq, Repr

/-- An element the surface loop keeps: nonempty with `e[0] in (5, 9)`. -/
def surfEligible (e : List Int) : Bool :=
  match e with
  | [] => false
  | t :: _ => t == 5 || t == 9

/-- An element the 2D line loop keeps: `e[0] == 3` and `len(e[1:3]) == 2`. -/
def lineKeptB (e : List Int) : Bool :=
  (match e with
   | [] => false
   | t :: _ => t == 3) && ((e.drop 1).take 2).length == 2

/-- Connectivity lists collected by the surface loop (`conn = e[1:]`). -/
def surfConns (elems : List (List Int)) : List (List Int) :=
  (elems.filter surfEligible).map (fun e => e.drop 1)

/-- Connectivity lists collected by the 2D line loop (`conn = e[1:3]`). -/
def lineConns (elems : List (List Int)) : List (List Int) :=
  (elems.filter lineKeptB).map (fun e => (e.drop 1).take 2)

/-- `used = sorted(used)`: ascending sorted list of the set of all node
indices appearing in the collected connectivities. -/
def usedOf (conns : List (List Int)) : List Int :=
  conns.flatten.dedup.insertionSort (· ≤ ·)

/-- `old2new = {o: i for i, o in enumerate(used)}`: rank of an old global
index within the sorted unique index list. -/
def old2new (used : List Int) (n : Int) : Nat := used.indexOf n

/-- `build_surface_compacted(global_pts, elems)` (tri/quad markers, 3D). -/
def build_surface_compacted {P : Type} (global_pts : Int → P)
    (elems : List (List Int)) : Option (CompactMesh P) :=
  let conns := surfConns elems
  if conns = [] then none
  else
    let used := usedOf conns
    some ⟨used.map global_pts,
          conns.map (fun c => c.map (old2new used)),
          (elems.filter surfEligible).map (fun e => (vtkTypeMap (e.headD 0)).getD 0)⟩

/-- `build_boundary_compacted_2d(global_pts, elems)` (line markers, 2D). -/
def build_boundary_compacted_2d {P : Type} (global_pts : Int → P)
    (elems : List (List Int)) : Option (CompactMesh P) :=
  let conns := lineConns elems
  if conns = [] then none
  else
    let used := usedOf conns
    some ⟨used.map global_pts,
          conns.map (fun c => c.map (old2new used)),
          (elems.filter lineKeptB).map (fun _ => (vtkTypeMap 3).getD 0)⟩

/-! ### Parser (`read_su2`) -/

inductive Su2Err where
  | missingSection (name : Line)
  | malformed
  deriving DecidableEq, Repr

deriving instance DecidableEq for Except

/-- The tuple `(ndime, pts, vol_conns, vol_ctypes, markers)` returned by
`read_su2`.  Point rows are `[x, y, z]`; `markers` is the dict as an
insertion-ordered association list. -/
structure Su2Result where
  ndime : Int
  pts : List (List ℚ)
  volConns : List (List Int)
  volCtypes : List Int
  markers : List (Line × List (List Int))
  deriving DecidableEq, Repr

def kNDIME : Line := "NDIME".toList
def kNPOIN : Line := "NPOIN".toList
def kNELEM : Line := "NELEM".toList
def kNMARK : Line := "NMARK".toList

/-- The filtering done while reading the file: keep lines that are nonblank
after stripping and do not start (unstripped) with `%`; store them stripped. -/
def filterLines (raw : List Line) : List Line :=
  (raw.filter (fun l => !(pyStrip l).isEmpty && !(List.isPrefixOf ("%".toList) l))).map pyStrip

/-- `find(key)`: index of the first line starting with `key`. -/
def findSection (lines : List Line) (key : Line) : Option Nat :=
  lines.findIdx? (fun l => List.isPrefixOf key l)

def requireSection (lines : List Line) (key : Line) : Except Su2Err Nat :=
  match findSection lines key with
  | some i => .ok i
  | none => .error (.missingSection key)

/-- `lines[i]` (an out-of-range index is a fatal error). -/
def lineAt (lines : List Line) (i : Nat) : Except Su2Err Line :=
  match lines.get? i with
  | some l => .ok l
  | none => .error .malformed

/-- `l.split("=")[1]` (an index error is a fatal error). -/
def eqField1 (l : Line) : Except Su2Err Line :=
  match (pySplitEq l).get? 1 with
  | some v => .ok v
  | none => .error .malformed

/-- `int(l.split("=")[1])`. -/
def intAfterEq (l : Line) : Except Su2Err Int :=
  match eqField1 l with
  | .error e => .error e
  | .ok v =>
    match pyInt v with
    | some n => .ok n
    | none => .error .malformed

/-- `int(lines[i].split("=")[1])`. -/
def intAt (lines : List Line) (i : Nat) : Except Su2Err Int :=
  match lineAt lines i with
  | .error e => .error e
  | .ok l => intAfterEq l

/-- Number of columns addressed by `pts[k, :ndime]` in the `(npoin, 3)`
coordinate array. -/
def numPointCols (ndime : Int) : Nat :=
  (pySliceTo ndime ([0, 1, 2] : List Nat)).length

/-- One point line: `xyz = list(map(float, line.split()[:ndime]))` followed
by the broadcast `pts[k, :ndime] = xyz` into a zero row. -/
def parsePointLine (ndime : Int) (l : Line) : Option (List ℚ) :=
  match (pySliceTo ndime (pySplitWs l)).mapM pyFloat with
  | none => none
  | some xyz =>
    if xyz.length = numPointCols ndime then
      some (xyz ++ List.replicate (3 - numPointCols ndime) 0)
    else none

/-- The NPOIN loop: one point per line starting at `start`. -/
def readPoints (lines : List Line) (ndime : Int) (start : Nat) :
    Nat → Except Su2Err (List (List ℚ))
  | 0 => .ok []
  | n + 1 =>
    match lineAt lines start with
    | .error e => .error e
    | .ok l =>
      match parsePointLine ndime l with
      | none => .error .malformed
      | some p =>
        match readPoints lines ndime (start + 1) n with
        | .error e => .error e
        | .ok rest => .ok (p :: rest)

/-- `list(map(int, line.split()))`. -/
def parseIntLine (l : Line) : Except Su2Err (List Int) :=
  match (pySplitWs l).mapM pyInt with
  | some xs => .ok xs
  | none => .error .malformed

/-- Volume-element connectivity: `parts[1:1+SU2_NNODES[etype]]` when
`ndime == 2 and etype in SU2_NNODES`, else `parts[1:]`. -/
def volConnOf (ndime : Int) (etype : Int) (parts : List Int) : List Int :=
  if ndime = 2 then
    match su2NNodes etype with
    | some nn => (parts.drop 1).take nn
    | none => parts.drop 1
  else parts.drop 1

/-- The NELEM loop: unsupported type codes are skipped, supported ones are
appended with their (possibly truncated) connectivity and VTK cell type. -/
def readVolElems (lines : List Line) (ndime : Int) (start : Nat) :
    Nat → Except Su2Err (List (List Int) × List Int)
  | 0 => .ok ([], [])
  | n + 1 =>
    match lineAt lines start with
    | .error e => .error e
    | .ok l =>
      match parseIntLine l with
      | .error e => .error e
      | .ok parts =>
        match parts.head? with
        | none => .error .malformed
        | some etype =>
          match readVolElems lines ndime (start + 1) n with
          | .error e => .error e
          | .ok rest =>
            match vtkTypeMap etype with
            | none => .ok rest
            | some ct => .ok (volConnOf ndime etype parts :: rest.1, ct :: rest.2)

/-- Marker-element 2D fix: `e[:1+SU2_NNODES[e[0]]]` when
`ndime == 2 and e and e[0] in SU2_NNODES`, else `e` unchanged. -/
def markerFix (ndime : Int) (e : List Int) : List Int :=
  if ndime = 2 then
    match e with
    | [] => e
    | t :: _ =>
      match su2NNodes t with
      | some nn => e.take (1 + nn)
      | none => e
  else e

/-- The per-marker element loop: every parsed record is kept (after the 2D
fix), with no type-code filtering. -/
def readMarkerElems (lines : List Line) (ndime : Int) (start : Nat) :
    Nat → Except Su2Err (List (List Int))
  | 0 => .ok []
  | n + 1 =>
    match lineAt lines start with
    | .error e => .error e
    | .ok l =>
      match parseIntLine l with
      | .error e => .error e
      | .ok e =>
        match readMarkerElems lines ndime (start + 1) n with
        | .error err => .error err
        | .ok rest => .ok (markerFix ndime e :: rest)

/-- Python dict assignment `markers[tag] = elems`: replace in place if the
key exists (keeping its original position), else append. -/
def dictInsert (d : List (Line × α)) (k : Line) (v : α) : List (Line × α) :=
  if d.any (fun kv => kv.1 == k) then
    d.map (fun kv => if kv.1 == k then (k, v) else kv)
  else d ++ [(k, v)]

/-- The NMARK loop: for each marker read the tag line, the element count
line, then that many element lines, advancing the cursor `p`. -/
def readMarkers (lines : List Line) (ndime : Int) :
    Nat → Nat → List (Line × List (List Int)) →
      Except Su2Err (List (Line × List (List Int)))
  | _, 0, acc => .ok acc
  | p, n + 1, acc =>
    match lineAt lines p with
    | .error e => .error e
    | .ok tl =>
      match eqField1 tl with
      | .error e => .error e
      | .ok tagRaw =>
        match intAt lines (p + 1) with
        | .error e => .error e
        | .ok ne =>
          match readMarkerElems lines ndime (p + 2) ne.toNat with
          | .error e => .error e
          | .ok es =>
            readMarkers lines ndime (p + 2 + ne.toNat) n
              (dictInsert acc (pyStrip tagRaw) es)

/-- The NELEM section: optional; absence yields empty element lists. -/
def readNelemBlock (lines : List Line) (ndime : Int) :
    Except Su2Err (List (List Int) × List Int) :=
  match findSection lines kNELEM with
  | none => .ok ([], [])
  | some iE =>
    match intAt lines iE with
    | .error e => .error e
    | .ok nelem => readVolElems lines ndime (iE + 1) nelem.toNat

/-- `read_su2`, over the filtered line sequence.  A negative NPOIN is
fatal (`np.zeros((npoin, 3))` rejects negative dimensions). -/
def readSu2 (lines : List Line) : Except Su2Err Su2Result :=
  match requireSection lines kNDIME with
  | .error e => .error e
  | .ok iD =>
  match intAt lines iD with
  | .error e => .error e
  | .ok ndime =>
  match requireSection lines kNPOIN with
  | .error e => .error e
  | .ok iP =>
  match intAt lines iP with
  | .error e => .error e
  | .ok npoin =>
  if npoin < 0 then .error .malformed
  else
  match readPoints lines ndime (iP + 1) npoin.toNat with
  | .error e => .error e
  | .ok pts =>
  match readNelemBlock lines ndime with
  | .error e => .error e
  | .ok vol =>
  match requireSection lines kNMARK with
  | .error e => .error e
  | .ok iM =>
  match intAt lines iM with
  | .error e => .error e
  | .ok nmark =>
  match readMarkers lines ndime (iM + 1) nmark.toNat [] with
  | .error e => .error e
  | .ok ms => .ok ⟨ndime, pts, vol.1, vol.2, ms⟩

/-! ### Lemmas about the sorted unique index list -/

theorem usedOf_sorted_le (conns : List (List Int)) :
    (usedOf conns).Sorted (· ≤ ·) :=
  List.sorted_insertionSort _ _

theorem usedOf_nodup (conns : List (List Int)) : (usedOf conns).Nodup :=
  ((List.perm_insertionSort (· ≤ ·) conns.flatten.dedup).nodup_iff).mpr
    (List.nodup_dedup _)

theorem usedOf_sorted (conns : List (List Int)) :
    (usedOf conns).Sorted (· < ·) :=
  (usedOf_sorted_le conns).lt_of_le (usedOf_nodup conns)

theorem mem_usedOf {conns : List (List Int)} {n : Int} :
    n ∈ usedOf conns ↔ ∃ c ∈ conns, n ∈ c := by
  simp [usedOf, List.mem_insertionSort, List.mem_dedup, List.mem_flatten]

theorem usedOf_eq_of_mem_iff {c₁ c₂ : List (List Int)}
    (h : ∀ n : Int, (∃ c ∈ c₁, n ∈ c) ↔ (∃ c ∈ c₂, n ∈ c)) :
    usedOf c₁ = usedOf c₂ :=
  List.eq_of_perm_of_sorted
    (List.perm_of_nodup_nodup_toFinset_eq (usedOf_nodup c₁) (usedOf_nodup c₂)
      (Finset.ext fun n => by
        simp only [List.mem_toFinset, mem_usedOf]
        exact h n))
    (usedOf_sorted_le c₁) (usedOf_sorted_le c₂)

theorem usedOf_rank_lt {conns : List (List Int)} {n : Int}
    (h : ∃ c ∈ conns, n ∈ c) :
    old2new (usedOf conns) n < (usedOf conns).length :=
  List.indexOf_lt_length.mpr (mem_usedOf.mpr h)

theorem usedOf_rank_roundtrip {conns : List (List Int)} {n : Int}
    (h : ∃ c ∈ conns, n ∈ c) :
    (usedOf conns).get? (old2new (usedOf conns) n) = some n :=
  List.indexOf_get? (mem_usedOf.mpr h)

theorem surfConns_mem_iff {elems : List (List Int)} {n : Int} :
    (∃ c ∈ surfConns elems, n ∈ c) ↔
      ∃ e ∈ elems, surfEligible e = true ∧ n ∈ e.drop 1 := by
  simp only [surfConns, List.mem_map, List.mem_filter]
  constructor
  · rintro ⟨c, ⟨e, ⟨he, helig⟩, rfl⟩, hn⟩
    exact ⟨e, he, helig, hn⟩
  · rintro ⟨e, he, helig, hn⟩
    exact ⟨e.drop 1, ⟨e, ⟨he, helig⟩, rfl⟩, hn⟩

theorem lineConns_mem_iff {elems : List (List Int)} {n : Int} :
    (∃ c ∈ lineConns elems, n ∈ c) ↔
      ∃ e ∈ elems, lineKeptB e = true ∧ n ∈ (e.drop 1).take 2 := by
  simp only [lineConns, List.mem_map, List.mem_filter]
  constructor
  · rintro ⟨c, ⟨e, ⟨he, helig⟩, rfl⟩, hn⟩
    exact ⟨e, he, helig, hn⟩
  · rintro ⟨e, he, helig, hn⟩
    exact ⟨(e.drop 1).take 2, ⟨e, ⟨he, helig⟩, rfl⟩, hn⟩

theorem lineKeptB_iff {e : List Int} :
    lineKeptB e = true ↔ e.head? = some 3 ∧ 3 ≤ e.length := by
  cases e with
  | nil => simp [lineKeptB]
  | cons t rest =>
    simp only [lineKeptB, List.head?_cons, Option.some.injEq, Bool.and_eq_true,
      beq_iff_eq, List.length_take, List.length_drop, List.length_cons]
    omega

end SU2Reader

namespace SU2Reader

/-! ### Claim theorems: compaction -/

/-- C1: surface compaction keeps exactly the elements whose type code is
triangle (5) or quad (9); the compact point sequence maps the ascending
sorted set of all global indices referenced by kept elements through the
global point array; each kept element's node indices are remapped to the
rank of the old index in that sorted set; and the result is `none` exactly
when no eligible element exists. -/
theorem surface_compaction_spec {P : Type} (pts : Int → P) (elems : List (List Int)) :
    (build_surface_compacted pts elems = none ↔
      ∀ e ∈ elems, surfEligible e = false)
    ∧ ∀ m, build_surface_compacted pts elems = some m →
        ∃ us : List Int, us.Sorted (· < ·)
          ∧ (∀ n : Int, n ∈ us ↔ ∃ e ∈ elems, surfEligible e = true ∧ n ∈ e.drop 1)
          ∧ m.points = us.map pts
          ∧ m.connectivity =
              (elems.filter surfEligible).map
                (fun e => (e.drop 1).map (fun n => us.indexOf n)) := by
  have hnil : surfConns elems = [] ↔ ∀ e ∈ elems, surfEligible e = false := by
    simp [surfConns, List.filter_eq_nil_iff]
  constructor
  · rw [build_surface_compacted]
    split
    · next h => simpa using hnil.mp h
    · next h =>
      simp only [reduceCtorEq, false_iff]
      intro hall
      exact h (hnil.mpr hall)
  · intro m hm
    rw [build_surface_compacted] at hm
    split at hm
    · exact absurd hm (by simp)
    · next hne =>
      cases hm
      refine ⟨usedOf (surfConns elems), usedOf_sorted _, ?_, rfl, ?_⟩
      · intro n
        rw [mem_usedOf, surfConns_mem_iff]
      · simp only [surfConns, List.map_map]
        rfl

/-- C1 witness: the spec scenario, triangle `[5,0,1,2]` and quad
`[9,10,11,12,13]`, yields the 7 sorted compact points 0,1,2,10,11,12,13
with connectivities remapped to `[0,1,2]` and `[3,4,5,6]`. -/
theorem surface_compaction_spec_witness :
    ∃ us : List Int, us.Sorted (· < ·)
      ∧ (∀ n : Int, n ∈ us ↔
          ∃ e ∈ ([[5, 0, 1, 2], [9, 10, 11, 12, 13]] : List (List Int)),
            surfEligible e = true ∧ n ∈ e.drop 1)
      ∧ (⟨[0, 1, 2, 10, 11, 12, 13], [[0, 1, 2], [3, 4, 5, 6]], [5, 9]⟩ :
            CompactMesh Int).points = us.map (fun n : Int => n)
      ∧ (⟨[0, 1, 2, 10, 11, 12, 13], [[0, 1, 2], [3, 4, 5, 6]], [5, 9]⟩ :
            CompactMesh Int).connectivity =
          (([[5, 0, 1, 2], [9, 10, 11, 12, 13]] : List (List Int)).filter surfEligible).map
            (fun e => (e.drop 1).map (fun n => us.indexOf n)) :=
  (surface_compaction_spec (fun n : Int => n) [[5, 0, 1, 2], [9, 10, 11, 12, 13]]).2
    ⟨[0, 1, 2, 10, 11, 12, 13], [[0, 1, 2], [3, 4, 5, 6]], [5, 9]⟩ (by decide)

/-- C2: for any compact mesh produced by either compaction variant, every
remapped connectivity index is in `[0, len(points))`, and mapping a kept
element's node index `n` through `used[old2new[n]]` reproduces `n`. -/
theorem compaction_roundtrip_spec {P : Type} (pts : Int → P) (elems : List (List Int)) :
    (∀ m, build_surface_compacted pts elems = some m →
       (∀ c ∈ m.connectivity, ∀ j ∈ c, j < m.points.length)
       ∧ ∀ e ∈ elems, surfEligible e = true → ∀ n ∈ e.drop 1,
           (usedOf (surfConns elems)).get? (old2new (usedOf (surfConns elems)) n) = some n)
    ∧ (∀ m, build_boundary_compacted_2d pts elems = some m →
       (∀ c ∈ m.connectivity, ∀ j ∈ c, j < m.points.length)
       ∧ ∀ e ∈ elems, lineKeptB e = true → ∀ n ∈ (e.drop 1).take 2,
           (usedOf (lineConns elems)).get? (old2new (usedOf (lineConns elems)) n) = some n) := by
  have bound : ∀ (conns : List (List Int)) (c : List Nat),
      c ∈ conns.map (fun c0 => c0.map (old2new (usedOf conns))) →
      ∀ j ∈ c, j < (usedOf conns).length := by
    intro conns c hc j hj
    obtain ⟨c₀, hc₀, rfl⟩ := List.mem_map.mp hc
    obtain ⟨n, hn, rfl⟩ := List.mem_map.mp hj
    exact usedOf_rank_lt ⟨c₀, hc₀, hn⟩
  constructor
  · intro m hm
    rw [build_surface_compacted] at hm
    split at hm
    · exact absurd hm (by simp)
    · cases hm
      refine ⟨?_, ?_⟩
      · intro c hc j hj
        simpa using bound (surfConns elems) c hc j hj
      · intro e he helig n hn
        exact usedOf_rank_roundtrip (surfConns_mem_iff.mpr ⟨e, he, helig, hn⟩)
  · intro m hm
    rw [build_boundary_compacted_2d] at hm
    split at hm
    · exact absurd hm (by simp)
    · cases hm
      refine ⟨?_, ?_⟩
      · intro c hc j hj
        simpa using bound (lineConns elems) c hc j hj
      · intro e he helig n hn
        exact usedOf_rank_roundtrip (lineConns_mem_iff.mpr ⟨e, he, helig, hn⟩)

/-- C2 witness: a single triangle marker element `[5,0,1,2]` gives compact
points `[0,1,2]`, in-bounds connectivity and an exact index round-trip. -/
theorem compaction_roundtrip_spec_witness :
    (∀ c ∈ (⟨[0, 1, 2], [[0, 1, 2]], [5]⟩ : CompactMesh Int).connectivity,
        ∀ j ∈ c, j < (⟨[0, 1, 2], [[0, 1, 2]], [5]⟩ : CompactMesh Int).points.length)
    ∧ ∀ e ∈ ([[5, 0, 1, 2]] : List (List Int)), surfEligible e = true →
        ∀ n ∈ e.drop 1,
          (usedOf (surfConns [[5, 0, 1, 2]])).get?
            (old2new (usedOf (surfConns [[5, 0, 1, 2]])) n) = some n :=
  (compaction_roundtrip_spec (fun n : Int => n) [[5, 0, 1, 2]]).1
    ⟨[0, 1, 2], [[0, 1, 2]], [5]⟩ (by decide)

/-- C4 counterexample: `[[3, 7]]` contains an element whose type code is
line (3), yet `build_boundary_compacted_2d` returns `none`, because the
element has fewer than two node indices and is silently dropped by the
`len(conn) == 2` check. -/
theorem line_compaction_counterexample :
    (∃ e ∈ ([[3, 7]] : List (List Int)), e.head? = some 3) ∧
      build_boundary_compacted_2d (fun n : Int => n) [[3, 7]] = none := by
  decide

/-- C4 (amended): line compaction keeps exactly the elements whose type
code is line (3) *and that carry at least two node index fields*; it uses
exactly the first two node indices of each kept element, applies the same
sorted-unique-index rank remapping as surface compaction, and returns
`none` exactly when no such element exists. -/
theorem line_compaction_spec {P : Type} (pts : Int → P) (elems : List (List Int)) :
    (build_boundary_compacted_2d pts elems = none ↔
      ∀ e ∈ elems, ¬(e.head? = some 3 ∧ 3 ≤ e.length))
    ∧ ∀ m, build_boundary_compacted_2d pts elems = some m →
        ∃ us : List Int, us.Sorted (· < ·)
          ∧ (∀ n : Int, n ∈ us ↔
              ∃ e ∈ elems, (e.head? = some 3 ∧ 3 ≤ e.length) ∧ n ∈ (e.drop 1).take 2)
          ∧ m.points = us.map pts
          ∧ m.connectivity =
              (elems.filter lineKeptB).map
                (fun e => ((e.drop 1).take 2).map (fun n => us.indexOf n)) := by
  have hkept : ∀ e : List Int,
      lineKeptB e = false ↔ ¬(e.head? = some 3 ∧ 3 ≤ e.length) := by
    intro e
    rw [← lineKeptB_iff]
    simp
  have hnil : lineConns elems = [] ↔ ∀ e ∈ elems, lineKeptB e = false := by
    simp [lineConns, List.filter_eq_nil_iff]
  constructor
  · rw [build_boundary_compacted_2d]
    split
    · next h =>
      have h2 : ∀ e ∈ elems, ¬(e.head? = some 3 ∧ 3 ≤ e.length) :=
        fun e he => (hkept e).mp (hnil.mp h e he)
      simpa using h2
    · next h =>
      simp only [reduceCtorEq, false_iff]
      intro hall
      exact h (hnil.mpr fun e he => (hkept e).mpr (hall e he))
  · intro m hm
    rw [build_boundary_compacted_2d] at hm
    split at hm
    · exact absurd hm (by simp)
    · next hne =>
      cases hm
      refine ⟨usedOf (lineConns elems), usedOf_sorted _, ?_, rfl, ?_⟩
      · intro n
        rw [mem_usedOf, lineConns_mem_iff]
        simp only [lineKeptB_iff]
      · simp only [lineConns, List.map_map]
        rfl

/-- C4 witness: two line elements `[3,0,1,99]` (stray trailing field) and
`[3,1,2]` give compact points `[0,1,2]` and connectivities `[[0,1],[1,2]]`
built from the first two node indices only. -/
theorem line_compaction_spec_witness :
    ∃ us : List Int, us.Sorted (· < ·)
      ∧ (∀ n : Int, n ∈ us ↔
          ∃ e ∈ ([[3, 0, 1, 99], [3, 1, 2]] : List (List Int)),
            (e.head? = some 3 ∧ 3 ≤ e.length) ∧ n ∈ (e.drop 1).take 2)
      ∧ (⟨[0, 1, 2], [[0, 1], [1, 2]], [3, 3]⟩ : CompactMesh Int).points =
          us.map (fun n : Int => n)
      ∧ (⟨[0, 1, 2], [[0, 1], [1, 2]], [3, 3]⟩ : CompactMesh Int).connectivity =
          (([[3, 0, 1, 99], [3, 1, 2]] : List (List Int)).filter lineKeptB).map
            (fun e => ((e.drop 1).take 2).map (fun n => us.indexOf n)) :=
  (line_compaction_spec (fun n : Int => n) [[3, 0, 1, 99], [3, 1, 2]]).2
    ⟨[0, 1, 2], [[0, 1], [1, 2]], [3, 3]⟩ (by decide)

/-- C8: both compaction variants are deterministic functions of their
input, and the compact point sequence depends only on the *set* of
referenced indices (ascending numeric sort), not on element order. -/
theorem compaction_determinism_spec {P : Type} (pts : Int → P)
    (elems elems' : List (List Int)) (h : elems.Perm elems') :
    build_surface_compacted pts elems = build_surface_compacted pts elems
    ∧ build_boundary_compacted_2d pts elems = build_boundary_compacted_2d pts elems
    ∧ (∀ m m', build_surface_compacted pts elems = some m →
        build_surface_compacted pts elems' = some m' → m.points = m'.points)
    ∧ (∀ m m', build_boundary_compacted_2d pts elems = some m →
        build_boundary_compacted_2d pts elems' = some m' → m.points = m'.points) := by
  have husedS : usedOf (surfConns elems) = usedOf (surfConns elems') :=
    usedOf_eq_of_mem_iff fun n => by
      rw [surfConns_mem_iff, surfConns_mem_iff]
      constructor
      · rintro ⟨e, he, rest⟩
        exact ⟨e, h.mem_iff.mp he, rest⟩
      · rintro ⟨e, he, rest⟩
        exact ⟨e, h.mem_iff.mpr he, rest⟩
  have husedL : usedOf (lineConns elems) = usedOf (lineConns elems') :=
    usedOf_eq_of_mem_iff fun n => by
      rw [lineConns_mem_iff, lineConns_mem_iff]
      constructor
      · rintro ⟨e, he, rest⟩
        exact ⟨e, h.mem_iff.mp he, rest⟩
      · rintro ⟨e, he, rest⟩
        exact ⟨e, h.mem_iff.mpr he, rest⟩
  refine ⟨rfl, rfl, ?_, ?_⟩
  · intro m m' hm hm'
    rw [build_surface_compacted] at hm
    split at hm
    · exact absurd hm (by simp)
    · cases hm
      rw [build_surface_compacted] at hm'
      split at hm'
      · exact absurd hm' (by simp)
      · cases hm'
        show (usedOf (surfConns elems)).map pts = (usedOf (surfConns elems')).map pts
        rw [husedS]
  · intro m m' hm hm'
    rw [build_boundary_compacted_2d] at hm
    split at hm
    · exact absurd hm (by simp)
    · cases hm
      rw [build_boundary_compacted_2d] at hm'
      split at hm'
      · exact absurd hm' (by simp)
      · cases hm'
        show (usedOf (lineConns elems)).map pts = (usedOf (lineConns elems')).map pts
        rw [husedL]

/-- C8 witness: swapping the two elements of the scenario marker leaves
the compact point sequence unchanged. -/
theorem compaction_determinism_spec_witness :
    (⟨[0, 1, 2, 10, 11, 12, 13], [[0, 1, 2], [3, 4, 5, 6]], [5, 9]⟩ :
        CompactMesh Int).points =
      (⟨[0, 1, 2, 10, 11, 12, 13], [[3, 4, 5, 6], [0, 1, 2]], [9, 5]⟩ :
        CompactMesh Int).points :=
  (compaction_determinism_spec (fun n : Int => n)
      [[5, 0, 1, 2], [9, 10, 11, 12, 13]] [[9, 10, 11, 12, 13], [5, 0, 1, 2]]
      (List.Perm.swap _ _ _)).2.2.1
    ⟨[0, 1, 2, 10, 11, 12, 13], [[0, 1, 2], [3, 4, 5, 6]], [5, 9]⟩
    ⟨[0, 1, 2, 10, 11, 12, 13], [[3, 4, 5, 6], [0, 1, 2]], [9, 5]⟩
    (by decide) (by decide)

/-! ### Lemmas about the parser -/

theorem lineAt_error {lines : List Line} {i : Nat} {e : Su2Err}
    (h : lineAt lines i = .error e) : e = .malformed := by
  unfold lineAt at h
  split at h <;> simp_all

theorem eqField1_error {l : Line} {e : Su2Err}
    (h : eqField1 l = .error e) : e = .malformed := by
  unfold eqField1 at h
  split at h <;> simp_all

theorem intAfterEq_error {l : Line} {e : Su2Err}
    (h : intAfterEq l = .error e) : e = .malformed := by
  unfold intAfterEq at h
  split at h
  · next e' heq =>
    cases h
    exact eqField1_error heq
  · split at h <;> simp_all

theorem intAt_error {lines : List Line} {i : Nat} {e : Su2Err}
    (h : intAt lines i = .error e) : e = .malformed := by
  unfold intAt at h
  split at h
  · next e' heq =>
    cases h
    exact lineAt_error heq
  · exact intAfterEq_error h

theorem parseIntLine_error {l : Line} {e : Su2Err}
    (h : parseIntLine l = .error e) : e = .malformed := by
  unfold parseIntLine at h
  split at h <;> simp_all

theorem readPoints_error {lines : List Line} {nd : Int} :
    ∀ {fuel start : Nat} {e : Su2Err},
      readPoints lines nd start fuel = .error e → e = .malformed := by
  intro fuel
  induction fuel with
  | zero =>
    intro start e h
    simp [readPoints] at h
  | succ n ih =>
    intro start e h
    rw [readPoints] at h
    split at h
    · next e' heq =>
      cases h
      exact lineAt_error heq
    · split at h
      · simp_all
      · split at h
        · next e' heq =>
          cases h
          exact ih heq
        · simp_all

theorem readVolElems_error {lines : List Line} {nd : Int} :
    ∀ {fuel start : Nat} {e : Su2Err},
      readVolElems lines nd start fuel = .error e → e = .malformed := by
  intro fuel
  induction fuel with
  | zero =>
    intro start e h
    simp [readVolElems] at h
  | succ n ih =>
    intro start e h
    rw [readVolElems] at h
    split at h
    · next e' heq =>
      cases h
      exact lineAt_error heq
    · split at h
      · next e' heq =>
        cases h
        exact parseIntLine_error heq
      · split at h
        · simp_all
        · split at h
          · next e' heq =>
            cases h
            exact ih heq
          · split at h <;> simp_all

theorem readMarkerElems_error {lines : List Line} {nd : Int} :
    ∀ {fuel start : Nat} {e : Su2Err},
      readMarkerElems lines nd start fuel = .error e → e = .malformed := by
  intro fuel
  induction fuel with
  | zero =>
    intro start e h
    simp [readMarkerElems] at h
  | succ n ih =>
    intro start e h
    rw [readMarkerElems] at h
    split at h
    · next e' heq =>
      cases h
      exact lineAt_error heq
    · split at h
      · next e' heq =>
        cases h
        exact parseIntLine_error heq
      · split at h
        · next e' heq =>
          cases h
          exact ih heq
        · simp_all

theorem readMarkers_error {lines : List Line} {nd : Int} :
    ∀ {fuel : Nat} {p : Nat} {acc : List (Line × List (List Int))} {e : Su2Err},
      readMarkers lines nd p fuel acc = .error e → e = .malformed := by
  intro fuel
  induction fuel with
  | zero =>
    intro p acc e h
    simp [readMarkers] at h
  | succ n ih =>
    intro p acc e h
    rw [readMarkers] at h
    split at h
    · next e' heq =>
      cases h
      exact lineAt_error heq
    · split at h
      · next e' heq =>
        cases h
        exact eqField1_error heq
      · split at h
        · next e' heq =>
          cases h
          exact intAt_error heq
        · split at h
          · next e' heq =>
            cases h
            exact readMarkerElems_error heq
          · exact ih h

theorem readNelemBlock_error {lines : List Line} {nd : Int} {e : Su2Err}
    (h : readNelemBlock lines nd = .error e) : e = .malformed := by
  unfold readNelemBlock at h
  split at h
  · simp_all
  · split at h
    · next e' heq =>
      cases h
      exact intAt_error heq
    · exact readVolElems_error h

theorem requireSection_error {lines : List Line} {k : Line} {e : Su2Err}
    (h : requireSection lines k = .error e) :
    e = .missingSection k ∧ findSection lines k = none := by
  unfold requireSection at h
  split at h <;> simp_all

theorem requireSection_ok {lines : List Line} {k : Line} {i : Nat}
    (h : requireSection lines k = .ok i) : findSection lines k = some i := by
  unfold requireSection at h
  split at h <;> simp_all

theorem readSu2_ok_inv {lines : List Line} {r : Su2Result}
    (h : readSu2 lines = .ok r) :
    ∃ iD ndime iP npoin pts vol iM nmark ms,
      requireSection lines kNDIME = .ok iD
      ∧ intAt lines iD = .ok ndime
      ∧ requireSection lines kNPOIN = .ok iP
      ∧ intAt lines iP = .ok npoin
      ∧ ¬ npoin < 0
      ∧ readPoints lines ndime (iP + 1) npoin.toNat = .ok pts
      ∧ readNelemBlock lines ndime = .ok vol
      ∧ requireSection lines kNMARK = .ok iM
      ∧ intAt lines iM = .ok nmark
      ∧ readMarkers lines ndime (iM + 1) nmark.toNat [] = .ok ms
      ∧ r = ⟨ndime, pts, vol.1, vol.2, ms⟩ := by
  rw [readSu2] at h
  split at h
  · simp at h
  · next iD heq1 =>
    split at h
    · simp at h
    · next ndime heq2 =>
      split at h
      · simp at h
      · next iP heq3 =>
        split at h
        · simp at h
        · next npoin heq4 =>
          split at h
          · simp at h
          · next hneg =>
            split at h
            · simp at h
            · next pts heq5 =>
              split at h
              · simp at h
              · next vol heq6 =>
                split at h
                · simp at h
                · next iM heq7 =>
                  split at h
                  · simp at h
                  · next nmark heq8 =>
                    split at h
                    · simp at h
                    · next ms heq9 =>
                      cases h
                      exact ⟨iD, ndime, iP, npoin, pts, vol, iM, nmark, ms,
                        heq1, heq2, heq3, heq4, hneg, heq5, heq6, heq7, heq8,
                        heq9, rfl⟩

theorem readSu2_missing {lines : List Line} {s : Line}
    (h : readSu2 lines = .error (.missingSection s)) :
    (s = kNDIME ∨ s = kNPOIN ∨ s = kNMARK) ∧ findSection lines s = none := by
  rw [readSu2] at h
  split at h
  · next e heq =>
    cases h
    obtain ⟨he, hf⟩ := requireSection_error heq
    obtain rfl : s = kNDIME := by injection he
    exact ⟨Or.inl rfl, hf⟩
  · next iD heq =>
    split at h
    · next e heq2 =>
      cases h
      exact absurd (intAt_error heq2) (by simp)
    · next ndime heq2 =>
      split at h
      · next e heq3 =>
        cases h
        obtain ⟨he, hf⟩ := requireSection_error heq3
        obtain rfl : s = kNPOIN := by injection he
        exact ⟨Or.inr (Or.inl rfl), hf⟩
      · next iP heq3 =>
        split at h
        · next e heq4 =>
          cases h
          exact absurd (intAt_error heq4) (by simp)
        · next npoin heq4 =>
          split at h
          · simp at h
          · split at h
            · next e heq5 =>
              cases h
              exact absurd (readPoints_error heq5) (by simp)
            · next pts heq5 =>
              split at h
              · next e heq6 =>
                cases h
                exact absurd (readNelemBlock_error heq6) (by simp)
              · next vol heq6 =>
                split at h
                · next e heq7 =>
                  cases h
                  obtain ⟨he, hf⟩ := requireSection_error heq7
                  obtain rfl : s = kNMARK := by injection he
                  exact ⟨Or.inr (Or.inr rfl), hf⟩
                · next iM heq7 =>
                  split at h
                  · next e heq8 =>
                    cases h
                    exact absurd (intAt_error heq8) (by simp)
                  · next nmark heq8 =>
                    split at h
                    · next e heq9 =>
                      cases h
                      exact absurd (readMarkers_error heq9) (by simp)
                    · simp at h

theorem lineAt_ok {lines : List Line} {i : Nat} {l : Line}
    (h : lineAt lines i = .ok l) : lines.get? i = some l := by
  unfold lineAt at h
  split at h <;> simp_all

theorem readPoints_ok {lines : List Line} {nd : Int} :
    ∀ {fuel start : Nat} {ps : List (List ℚ)},
      readPoints lines nd start fuel = .ok ps →
      ps.length = fuel
      ∧ (∀ k, k < fuel → ∃ l, lines.get? (start + k) = some l
          ∧ parsePointLine nd l = ps.get? k)
      ∧ (∀ p ∈ ps, ∃ l, parsePointLine nd l = some p) := by
  intro fuel
  induction fuel with
  | zero =>
    intro start ps h
    rw [readPoints] at h
    cases h
    exact ⟨rfl, fun k hk => absurd hk (by omega), fun p hp => absurd hp (by simp)⟩
  | succ n ih =>
    intro start ps h
    rw [readPoints] at h
    split at h
    · simp at h
    · next l heql =>
      split at h
      · simp at h
      · next p heqp =>
        split at h
        · simp at h
        · next rest heqr =>
          cases h
          obtain ⟨hlen, hidx, hmem⟩ := ih heqr
          refine ⟨by simp [hlen], ?_, ?_⟩
          · intro k hk
            cases k with
            | zero =>
              exact ⟨l, by simpa using lineAt_ok heql, heqp⟩
            | succ k2 =>
              obtain ⟨l2, hl2, hp2⟩ := hidx k2 (by omega)
              refine ⟨l2, ?_, hp2⟩
              rw [show start + (k2 + 1) = start + 1 + k2 by omega]
              exact hl2
          · intro q hq
            rcases List.mem_cons.mp hq with rfl | hq2
            · exact ⟨l, heqp⟩
            · exact hmem q hq2

theorem parsePointLine_two_z {l : Line} {p : List ℚ}
    (h : parsePointLine 2 l = some p) : p.get? 2 = some 0 := by
  unfold parsePointLine at h
  split at h
  · simp at h
  · next xyz heq =>
    split at h
    · next hlen =>
      cases h
      have h2 : xyz.length = 2 := hlen
      obtain ⟨a, b, rfl⟩ := List.length_eq_two.mp h2
      rfl
    · simp at h

theorem vtkTypeMap_mem {t ct : Int} (h : vtkTypeMap t = some ct) :
    ct ∈ ([3, 5, 9, 10, 12, 13, 14] : List Int) := by
  unfold vtkTypeMap at h
  split_ifs at h <;> simp_all

theorem readVolElems_ctypes {lines : List Line} {nd : Int} :
    ∀ {fuel start : Nat} {vcvt : List (List Int) × List Int},
      readVolElems lines nd start fuel = .ok vcvt →
      ∀ ct ∈ vcvt.2, ct ∈ ([3, 5, 9, 10, 12, 13, 14] : List Int) := by
  intro fuel
  induction fuel with
  | zero =>
    intro start vcvt h
    rw [readVolElems] at h
    cases h
    simp
  | succ n ih =>
    intro start vcvt h ct hct
    rw [readVolElems] at h
    split at h
    · simp at h
    · split at h
      · simp at h
      · next parts heqp =>
        split at h
        · simp at h
        · next etype heqe =>
          split at h
          · simp at h
          · next rest heqr =>
            split at h
            · cases h
              exact ih heqr ct hct
            · next ct2 heqv =>
              cases h
              rcases List.mem_cons.mp hct with rfl | hmem
              · exact vtkTypeMap_mem heqv
              · exact ih heqr ct hmem

theorem readMarkerElems_ok {lines : List Line} {nd : Int} :
    ∀ {fuel start : Nat} {es : List (List Int)},
      readMarkerElems lines nd start fuel = .ok es →
      es.length = fuel
      ∧ ∀ k, k < fuel → ∃ l parts, lines.get? (start + k) = some l
          ∧ parseIntLine l = .ok parts ∧ es.get? k = some (markerFix nd parts) := by
  intro fuel
  induction fuel with
  | zero =>
    intro start es h
    rw [readMarkerElems] at h
    cases h
    exact ⟨rfl, fun k hk => absurd hk (by omega)⟩
  | succ n ih =>
    intro start es h
    rw [readMarkerElems] at h
    split at h
    · simp at h
    · next l heql =>
      split at h
      · simp at h
      · next e0 heqe =>
        split at h
        · simp at h
        · next rest heqr =>
          cases h
          obtain ⟨hlen, hidx⟩ := ih heqr
          refine ⟨by simp [hlen], ?_⟩
          intro k hk
          cases k with
          | zero =>
            exact ⟨l, e0, by simpa using lineAt_ok heql, heqe, rfl⟩
          | succ k2 =>
            obtain ⟨l2, parts2, hl2, hp2, he2⟩ := hidx k2 (by omega)
            refine ⟨l2, parts2, ?_, hp2, he2⟩
            rw [show start + (k2 + 1) = start + 1 + k2 by omega]
            exact hl2

end SU2Reader

namespace SU2Reader

/-! ### Claim theorems: parser -/

/-- C3: in a 2D file, every element record (volume or marker) whose type
code has a known expected node count is truncated to that count (marker
records keep the type code in front); in a non-2D file all integers after
the type code are taken unmodified, and marker records with an
unrecognized type code are never truncated. -/
theorem dual_mode_truncation_spec :
    (∀ (etype : Int) (nn : Nat) (parts : List Int), su2NNodes etype = some nn →
       volConnOf 2 etype parts = (parts.drop 1).take nn
       ∧ (nn + 1 ≤ parts.length → (volConnOf 2 etype parts).length = nn))
    ∧ (∀ (ndime etype : Int) (parts : List Int), ndime ≠ 2 →
        volConnOf ndime etype parts = parts.drop 1)
    ∧ (∀ (e : List Int) (t : Int) (nn : Nat), e.head? = some t →
        su2NNodes t = some nn →
        markerFix 2 e = e.take (1 + nn)
        ∧ (1 + nn ≤ e.length → (markerFix 2 e).length = 1 + nn))
    ∧ (∀ (ndime : Int) (e : List Int), ndime ≠ 2 → markerFix ndime e = e)
    ∧ (∀ (e : List Int) (t : Int), e.head? = some t → su2NNodes t = none →
        markerFix 2 e = e) := by
  refine ⟨?_, ?_, ?_, ?_, ?_⟩
  · intro etype nn parts h
    constructor
    · simp [volConnOf, h]
    · intro hlen
      simp [volConnOf, h]
      omega
  · intro ndime etype parts h
    simp [volConnOf, h]
  · intro e t nn ht hsn
    cases e with
    | nil => simp at ht
    | cons t0 rest =>
      obtain rfl : t0 = t := by simpa using ht
      constructor
      · simp [markerFix, hsn]
      · intro hlen
        simp only [List.length_cons] at hlen
        simp [markerFix, hsn]
        omega
  · intro ndime e h
    simp [markerFix, h]
  · intro e t ht hsn
    cases e with
    | nil => simp [markerFix]
    | cons t0 rest =>
      obtain rfl : t0 = t := by simpa using ht
      simp [markerFix, hsn]

/-- C3 witness: the 2D quad record `9 0 1 2 3 99` with a stray trailing
field is truncated to the 4 node indices `[0,1,2,3]`. -/
theorem dual_mode_truncation_spec_witness :
    volConnOf 2 9 [9, 0, 1, 2, 3, 99] = [0, 1, 2, 3]
    ∧ (volConnOf 2 9 [9, 0, 1, 2, 3, 99]).length = 4 :=
  ⟨(dual_mode_truncation_spec.1 9 4 [9, 0, 1, 2, 3, 99] (by decide)).1.trans
      (by decide),
   (dual_mode_truncation_spec.1 9 4 [9, 0, 1, 2, 3, 99] (by decide)).2 (by decide)⟩

/-- C5 (amended): a missing-section error names a mandatory section
(NDIME, NPOIN, NMARK) that is indeed absent; an absent mandatory section
always prevents a successful parse (though a malformed record earlier in
the file may surface as a malformed-record error instead); and an absent
NELEM section is not an error and yields empty volumetric element lists. -/
theorem missing_section_spec :
    (∀ (lines : List Line) (s : Line), readSu2 lines = .error (.missingSection s) →
        (s = kNDIME ∨ s = kNPOIN ∨ s = kNMARK) ∧ findSection lines s = none)
    ∧ (∀ (lines : List Line) (r : Su2Result),
        (findSection lines kNDIME = none ∨ findSection lines kNPOIN = none ∨
          findSection lines kNMARK = none) → readSu2 lines ≠ .ok r)
    ∧ (∀ (lines : List Line) (r : Su2Result), findSection lines kNELEM = none →
        readSu2 lines = .ok r → r.volConns = [] ∧ r.volCtypes = []) := by
  refine ⟨fun lines s h => readSu2_missing h, ?_, ?_⟩
  · intro lines r habs h
    obtain ⟨iD, ndime, iP, npoin, pts, vol, iM, nmark, ms, h1, _, h3, _, _, _, _,
      h8, _, _, _⟩ := readSu2_ok_inv h
    rcases habs with hnone | hnone | hnone
    · rw [requireSection_ok h1] at hnone
      simp at hnone
    · rw [requireSection_ok h3] at hnone
      simp at hnone
    · rw [requireSection_ok h8] at hnone
      simp at hnone
  · intro lines r hE h
    obtain ⟨iD, ndime, iP, npoin, pts, vol, iM, nmark, ms, _, _, _, _, _, _, h7,
      _, _, _, rfl⟩ := readSu2_ok_inv h
    rw [readNelemBlock, hE] at h7
    cases h7
    exact ⟨rfl, rfl⟩

/-- C5 counterexample: with NMARK absent but a malformed point line, the
parse fails with a malformed-record error, not a missing-section error,
refuting the claimed "exactly when" equivalence. -/
theorem missing_section_counterexample :
    findSection ["NDIME= 2".toList, "NPOIN= 1".toList, "bad".toList] kNMARK = none
    ∧ readSu2 ["NDIME= 2".toList, "NPOIN= 1".toList, "bad".toList]
        = .error .malformed := by
  decide

/-- C5 witness: a 2D file without an NELEM section parses successfully
with empty volumetric element lists. -/
theorem missing_section_spec_witness :
    (⟨2, [], [], [], []⟩ : Su2Result).volConns = []
    ∧ (⟨2, [], [], [], []⟩ : Su2Result).volCtypes = [] :=
  missing_section_spec.2.2
    ["NDIME= 2".toList, "NPOIN= 0".toList, "NMARK= 0".toList]
    ⟨2, [], [], [], []⟩ (by decide) (by decide)

/-- C6: on a successful parse the number of points equals the NPOIN count
(which is necessarily non-negative), each point comes from parsing the
first `ndime` whitespace fields of its own line after NPOIN, and in a 2D
file every point's z-component is exactly 0. -/
theorem point_parsing_spec (lines : List Line) (r : Su2Result) (iP : Nat) (np : Int)
    (h : readSu2 lines = .ok r) (hP : findSection lines kNPOIN = some iP)
    (hn : intAt lines iP = .ok np) :
    0 ≤ np
    ∧ r.pts.length = np.toNat
    ∧ (∀ k, k < np.toNat → ∃ l, lines.get? (iP + 1 + k) = some l
        ∧ parsePointLine r.ndime l = r.pts.get? k)
    ∧ (r.ndime = 2 → ∀ p ∈ r.pts, p.get? 2 = some 0) := by
  obtain ⟨iD, ndime, iP2, npoin, pts, vol, iM, nmark, ms, h1, h2, h3, h4, h5, h6,
    h7, h8, h9, h10, rfl⟩ := readSu2_ok_inv h
  have hiP : iP2 = iP := by
    have hh := requireSection_ok h3
    rw [hP] at hh
    injection hh with hh
    exact hh.symm
  subst hiP
  have hnp : npoin = np := by
    rw [h4] at hn
    injection hn
  subst hnp
  obtain ⟨hlen, hidx, hmem⟩ := readPoints_ok h6
  refine ⟨by omega, hlen, ?_, ?_⟩
  · intro k hk
    exact hidx k hk
  · intro hnd p hp
    obtain ⟨l, hpl⟩ := hmem p hp
    have hnd2 : ndime = 2 := hnd
    rw [hnd2] at hpl
    exact parsePointLine_two_z hpl

/-- C6 witness: a 2D file with NPOIN = 1 and point line `1 2` yields one
point whose z-component is 0. -/
theorem point_parsing_spec_witness :
    (0 : Int) ≤ 1
    ∧ (⟨2, [[1, 2, 0]], [], [], []⟩ : Su2Result).pts.length = (1 : Int).toNat
    ∧ (∀ k, k < (1 : Int).toNat → ∃ l,
        ["NDIME= 2".toList, "NPOIN= 1".toList, "1 2".toList,
          "NMARK= 0".toList].get? (1 + 1 + k) = some l
        ∧ parsePointLine (⟨2, [[1, 2, 0]], [], [], []⟩ : Su2Result).ndime l
            = (⟨2, [[1, 2, 0]], [], [], []⟩ : Su2Result).pts.get? k)
    ∧ ((⟨2, [[1, 2, 0]], [], [], []⟩ : Su2Result).ndime = 2 →
        ∀ p ∈ (⟨2, [[1, 2, 0]], [], [], []⟩ : Su2Result).pts,
          p.get? 2 = some 0) :=
  point_parsing_spec
    ["NDIME= 2".toList, "NPOIN= 1".toList, "1 2".toList, "NMARK= 0".toList]
    ⟨2, [[1, 2, 0]], [], [], []⟩ 1 1 (by decide) (by decide) (by decide)

/-- C7: every cell type in the parsed volumetric element lists is one of
the seven recognized codes (unrecognized volume records are dropped),
whereas the marker element loop keeps every parsed record, unfiltered,
regardless of its type code. -/
theorem two_stage_filtering_spec :
    (∀ (lines : List Line) (r : Su2Result), readSu2 lines = .ok r →
        ∀ ct ∈ r.volCtypes, ct ∈ ([3, 5, 9, 10, 12, 13, 14] : List Int))
    ∧ (∀ (lines : List Line) (nd : Int) (p fuel : Nat) (es : List (List Int)),
        readMarkerElems lines nd p fuel = .ok es →
        es.length = fuel ∧ ∀ k, k < fuel → ∃ l parts,
          lines.get? (p + k) = some l ∧ parseIntLine l = .ok parts
          ∧ es.get? k = some (markerFix nd parts)) := by
  constructor
  · intro lines r h ct hct
    obtain ⟨iD, ndime, iP, npoin, pts, vol, iM, nmark, ms, _, _, _, _, _, _, h7,
      _, _, _, rfl⟩ := readSu2_ok_inv h
    rw [readNelemBlock] at h7
    split at h7
    · cases h7
      simp at hct
    · split at h7
      · simp at h7
      · exact readVolElems_ctypes h7 ct hct
  · intro lines nd p fuel es h
    exact readMarkerElems_ok h

/-- C7 witness: a marker element line with the unrecognized type code 7 is
kept verbatim by the marker element loop. -/
theorem two_stage_filtering_spec_witness :
    ([[7, 0, 1]] : List (List Int)).length = 1 :=
  (two_stage_filtering_spec.2 ["7 0 1".toList] 3 0 1 [[7, 0, 1]] (by decide)).1

end SU2Reader

namespace SU2Reader

/-! ### Lemmas about key=value splitting -/

theorem splitP_head (p : Char → Bool) (l : Line) :
    (splitP p l).head? = some (l.takeWhile (fun c => !p c)) := by
  induction l with
  | nil => rfl
  | cons c rest ih =>
    by_cases h : p c = true
    · simp [splitP, h, List.takeWhile_cons]
    · have hc : p c = false := by simpa using h
      simp only [splitP, hc, Bool.false_eq_true, if_false]
      cases hsp : splitP p rest with
      | nil =>
        rw [hsp] at ih
        simp at ih
      | cons h0 t0 =>
        rw [hsp] at ih
        simp only [List.head?_cons, Option.some.injEq] at ih
        simp [List.takeWhile_cons, hc, ih]

theorem splitP_append_sep (p : Char → Bool) (a b : Line) (sep : Char)
    (ha : ∀ c ∈ a, p c = false) (hsep : p sep = true) :
    splitP p (a ++ sep :: b) = a :: splitP p b := by
  induction a with
  | nil => simp [splitP, hsep]
  | cons c a2 ih =>
    have hc : p c = false := ha c (by simp)
    have ih2 := ih fun d hd => ha d (by simp [hd])
    simp only [List.cons_append, splitP, hc, Bool.false_eq_true, if_false,
      List.append_eq]
    rw [ih2]

theorem takeWhile_of_all_neq {b : Line} (hb : ∀ c ∈ b, (c == '=') = false) :
    b.takeWhile (fun c => !(c == '=')) = b := by
  induction b with
  | nil => rfl
  | cons c rest ih =>
    have hc := hb c (by simp)
    simp [List.takeWhile_cons, hc, ih fun d hd => hb d (by simp [hd])]

end SU2Reader

namespace SU2Reader

/-- C9 counterexample: for the line `MARKER_TAG= a=b`, whose value contains
a `=`, the extraction yields only the trimmed text between the first and
second `=` (`a`), not the full remainder `a=b`. -/
theorem keyvalue_extraction_counterexample :
    eqField1 ("MARKER_TAG= a=b".toList) = .ok (" a".toList)
    ∧ pyStrip (" a".toList) = "a".toList
    ∧ ("a".toList : Line) ≠ "a=b".toList := by
  decide

/-- C9 (amended): the scalar extracted from a key=value line is the
substring after the first `=` and *before the next `=`* (which the caller
then trims or parses as a number); it is the full remainder after the
first `=` only when the value contains no further `=`. -/
theorem keyvalue_extraction_spec (a b : Line) (ha : ∀ c ∈ a, (c == '=') = false) :
    eqField1 (a ++ '=' :: b) = .ok (b.takeWhile (fun c => !(c == '=')))
    ∧ ((∀ c ∈ b, (c == '=') = false) → eqField1 (a ++ '=' :: b) = .ok b) := by
  have h1 : pySplitEq (a ++ '=' :: b) = a :: splitP (fun c => c == '=') b :=
    splitP_append_sep _ a b '=' ha (by simp)
  have hget : (pySplitEq (a ++ '=' :: b)).get? 1
      = some (b.takeWhile (fun c => !(c == '='))) := by
    rw [h1]
    have hh := splitP_head (fun c => c == '=') b
    cases hsp : splitP (fun c => c == '=') b with
    | nil =>
      rw [hsp] at hh
      simp at hh
    | cons h0 t0 =>
      rw [hsp] at hh
      simp only [List.head?_cons, Option.some.injEq] at hh
      simp [hh]
  have h2 : eqField1 (a ++ '=' :: b) = .ok (b.takeWhile (fun c => !(c == '='))) := by
    unfold eqField1
    rw [hget]
  exact ⟨h2, fun hb => by rw [h2, takeWhile_of_all_neq hb]⟩

/-- C9 witness: for `NPOIN= 5` (no second `=`), the extraction returns the
full remainder after the `=`. -/
theorem keyvalue_extraction_spec_witness :
    eqField1 ("NPOIN".toList ++ '=' :: " 5".toList) = .ok (" 5".toList) :=
  (keyvalue_extraction_spec ("NPOIN".toList) (" 5".toList) (by decide)).2
    (by decide)

/-- C10: Python dict assignment makes a repeated `MARKER_TAG` override the
earlier entry in place, so a file declaring two markers with the same tag
parses without error into a markers mapping with a single entry for that
tag holding the last marker's elements. -/
theorem duplicate_marker_tags_spec :
    (∀ (acc : List (Line × List (List Int))) (k : Line) (v₁ v₂ : List (List Int)),
        dictInsert (dictInsert acc k v₁) k v₂ = dictInsert acc k v₂)
    ∧ readSu2 ["NDIME= 3".toList, "NPOIN= 0".toList, "NMARK= 2".toList,
        "MARKER_TAG= A".toList, "MARKER_ELEMS= 1".toList, "5 0 1 2".toList,
        "MARKER_TAG= A".toList, "MARKER_ELEMS= 1".toList, "9 4 5 6 7".toList]
      = .ok ⟨3, [], [], [], [("A".toList, [[9, 4, 5, 6, 7]])]⟩ := by
  constructor
  · intro acc k v₁ v₂
    by_cases h : acc.any (fun kv => kv.1 == k) = true
    · have h2 : (acc.map (fun kv => if kv.1 == k then (k, v₁) else kv)).any
          (fun kv => kv.1 == k) = true := by
        obtain ⟨kv, hkv, hk⟩ := List.any_eq_true.mp h
        exact List.any_eq_true.mpr
          ⟨(k, v₁), List.mem_map.mpr ⟨kv, hkv, by simp [hk]⟩, by simp⟩
      unfold dictInsert
      rw [if_pos h, if_pos h, if_pos h2, List.map_map]
      apply List.map_congr_left
      intro kv _
      by_cases hk : kv.1 == k
      · simp [Function.comp, hk]
      · simp [Function.comp, hk]
    · have hall : ∀ kv ∈ acc, (kv.1 == k) = false := by
        intro kv hkv
        by_contra hc
        exact h (List.any_eq_true.mpr ⟨kv, hkv, by simpa using hc⟩)
      have h2 : ((acc ++ [(k, v₁)]).any (fun kv => kv.1 == k)) = true :=
        List.any_eq_true.mpr ⟨(k, v₁), by simp, by simp⟩
      unfold dictInsert
      rw [if_neg h, if_neg h, if_pos h2, List.map_append]
      have hmap : acc.map (fun kv => if kv.1 == k then (k, v₂) else kv) = acc := by
        have := List.map_congr_left
          (fun kv hkv => by simp [hall kv hkv] : ∀ kv ∈ acc,
            (fun kv => if kv.1 == k then (k, v₂) else kv) kv = id kv)
        rw [this, List.map_id]
      rw [hmap]
      simp
  · decide

end SU2Reader
